import Mathlib

/-!
Verification of the client-group rule engine of `ui-cli`
(`src/ui_cli/groups.py`), against its natural-language specification.

The embedding is shallow: Python strings are `List Char`, the Python
`dict` holding the group store is an insertion-ordered association list
with Python-dict update/delete semantics, machine integers (IPv4 values)
are `Nat` with explicit bounds, and fallible paths return `Option` /
`Except`.  Python's `str.upper` / `str.lower` are modelled per character
by core `Char.toUpper` / `Char.toLower` (the ASCII range, which is all
the code's MAC/slug/pattern data uses).  Where the Python code delegates
to a standard-library facility (`re`, `fnmatch`, `ipaddress`), the
relevant subset of that facility's documented behaviour is embedded
explicitly; the subsets cover every construct the specification and the
repository's tests exercise, and parse failures outside the subset are
represented as `none` (the "malformed" outcome).
-/

namespace UiCliGroups

/-- Python `str` as a list of characters. -/
abbrev Str := List Char

/-- Shorthand to write string literals for the embedding. -/
def sl (s : String) : Str := s.data

/-- Python `str.lower`, per character (ASCII range). -/
def lowerStr (l : Str) : Str := l.map Char.toLower

/-- `(Char.ofNat k).toNat = k` on the uppercase-letter range used by
`Char.toUpper`. -/
theorem toNat_ofNat_upper_range : ∀ k, k < 91 → 65 ≤ k → (Char.ofNat k).toNat = k := by
  decide

/-- Core `Char.toUpper` maps the lowercase range exactly as Python's
ASCII `upper` does; outside the range it is the identity. -/
theorem toUpper_eq_self (c : Char) (h : ¬(c.toNat ≥ 97 ∧ c.toNat ≤ 122)) :
    c.toUpper = c := by
  simp only [Char.toUpper]
  rw [if_neg h]

/-- On lowercase letters, `Char.toUpper` subtracts 32 at the `toNat` level. -/
theorem toNat_toUpper_of_lower (c : Char) (h : c.toNat ≥ 97 ∧ c.toNat ≤ 122) :
    c.toUpper.toNat = c.toNat - 32 := by
  simp only [Char.toUpper]
  rw [if_pos h]
  exact toNat_ofNat_upper_range _ (by omega) (by omega)

/-- ASCII uppercasing is idempotent character by character. -/
theorem toUpper_idem (c : Char) : c.toUpper.toUpper = c.toUpper := by
  by_cases h : c.toNat ≥ 97 ∧ c.toNat ≤ 122
  · have h1 := toNat_toUpper_of_lower c h
    exact toUpper_eq_self _ (by omega)
  · rw [toUpper_eq_self c h, toUpper_eq_self c h]

/-- `"-"` separator replaced by `":"` (single-character `str.replace`). -/
def dashToColon (c : Char) : Char := if c = '-' then ':' else c

/-- `"."` separator replaced by `":"` (single-character `str.replace`). -/
def dotToColon (c : Char) : Char := if c = '.' then ':' else c

/-- The character-level effect of
`mac.upper().replace("-", ":").replace(".", ":")`:
`str.replace` with single-character arguments acts independently on each
character, so the three passes compose per character. -/
def macChar (c : Char) : Char := dotToColon (dashToColon c.toUpper)

/-- `mac.upper().replace("-", ":").replace(".", ":")` from
`GroupManager.normalize_mac`. -/
def macMapped (mac : Str) : Str := ((mac.map Char.toUpper).map dashToColon).map dotToColon

theorem macMapped_eq_map (mac : Str) : macMapped mac = mac.map macChar := by
  simp [macMapped, macChar, Function.comp]

/-- `":".join(mac[i : i + 2] for i in range(0, 12, 2))`: on the guarded
length-12 input this inserts a colon after every pair of characters. -/
def pairJoin : Str → Str
  | a :: b :: rest => if rest.isEmpty then [a, b] else a :: b :: ':' :: pairJoin rest
  | l => l

/-- `GroupManager.normalize_mac`: uppercase, then `-` and `.` become `:`,
then a bare 12-character string gets colons inserted every two characters. -/
def normalize_mac (mac : Str) : Str :=
  let m := macMapped mac
  if (!m.contains ':') && m.length == 12 then pairJoin m else m

theorem macChar_idem (c : Char) : macChar (macChar c) = macChar c := by
  by_cases hdash : c.toUpper = '-'
  · simp [macChar, dashToColon, dotToColon, hdash]
  · by_cases hdot : c.toUpper = '.'
    · simp [macChar, dashToColon, dotToColon, hdot]
    · have h1 : macChar c = c.toUpper := by
        simp [macChar, dashToColon, dotToColon, hdash, hdot]
      rw [h1]
      simp [macChar, dashToColon, dotToColon, toUpper_idem, hdash, hdot]

theorem macChar_colon : macChar ':' = ':' := by decide

/-- Every character of a mapped string is a fixed point of `macChar`. -/
theorem macChar_fixed_of_mem {c : Char} {l : Str} (h : c ∈ macMapped l) :
    macChar c = c := by
  rw [macMapped_eq_map] at h
  obtain ⟨a, _, rfl⟩ := List.mem_map.1 h
  exact macChar_idem a

theorem mem_pairJoin : ∀ (l : Str) (c : Char), c ∈ pairJoin l → c = ':' ∨ c ∈ l
  | [], _, h => Or.inr h
  | [_], _, h => Or.inr h
  | a :: b :: rest, c, h => by
    by_cases hr : rest.isEmpty
    · rw [pairJoin, if_pos hr] at h
      simp only [List.mem_cons] at h ⊢
      tauto
    · rw [pairJoin, if_neg hr] at h
      simp only [List.mem_cons] at h ⊢
      rcases h with h | h | h | h
      · tauto
      · tauto
      · exact Or.inl h
      · rcases mem_pairJoin rest c h with h' | h' <;> tauto

theorem pairJoin_contains_colon {l : Str} (h : l.length = 12) :
    ':' ∈ pairJoin l := by
  match l, h with
  | a :: b :: rest, h =>
    have hrest : rest.isEmpty = false := by
      cases rest with
      | nil => simp at h
      | cons x t => rfl
    rw [pairJoin, hrest]
    simp

theorem macMapped_fixed {l : Str} (hfix : ∀ c ∈ l, macChar c = c) :
    macMapped l = l := by
  rw [macMapped_eq_map]
  exact List.map_congr_left hfix |>.trans (List.map_id l)

/-- C9, idempotence half: `normalize_mac (normalize_mac x) = normalize_mac x`
for every string `x`. -/
theorem normalize_mac_idem (x : Str) :
    normalize_mac (normalize_mac x) = normalize_mac x := by
  unfold normalize_mac
  set m := macMapped x with hm
  have hfix : ∀ c ∈ m, macChar c = c := fun c hc => macChar_fixed_of_mem hc
  by_cases hcond : ((!m.contains ':') && m.length == 12) = true
  · rw [if_pos hcond]
    -- joined result: contains a colon, so the second pass returns it unchanged
    have hlen : m.length = 12 := by
      have h2 := hcond
      simp only [Bool.and_eq_true, beq_iff_eq] at h2
      exact h2.2
    have hfixJ : ∀ c ∈ pairJoin m, macChar c = c := by
      intro c hc
      rcases mem_pairJoin m c hc with rfl | hcm
      · exact macChar_colon
      · exact hfix c hcm
    rw [macMapped_fixed hfixJ]
    have hcolon : ':' ∈ pairJoin m := pairJoin_contains_colon hlen
    have hcondJ : ((!(pairJoin m).contains ':') && ((pairJoin m).length == 12)) = false := by
      simp [List.contains, hcolon]
    simp only [hcondJ, Bool.false_eq_true, if_false]
  · rw [if_neg hcond]
    rw [macMapped_fixed hfix]
    rw [if_neg hcond]

/-- C9: `normalizeAddress` is idempotent and format-invariant across the
three MAC spellings: the dashed, bare and colon-separated spellings of
`aa bb cc dd ee ff` all normalize to `"AA:BB:CC:DD:EE:FF"`. -/
theorem C9_normalize_mac_idempotent_format_invariant :
    (∀ x : Str, normalize_mac (normalize_mac x) = normalize_mac x) ∧
    normalize_mac (sl "aa-bb-cc-dd-ee-ff") = sl "AA:BB:CC:DD:EE:FF" ∧
    normalize_mac (sl "AABBCCDDEEFF") = sl "AA:BB:CC:DD:EE:FF" ∧
    normalize_mac (sl "aa:bb:cc:dd:ee:ff") = sl "AA:BB:CC:DD:EE:FF" := by
  refine ⟨normalize_mac_idem, ?_, ?_, ?_⟩ <;> decide

/-! ## Slugs, the group data model, and the Python-dict store -/

/-- The character class `[a-z0-9]` of `GroupManager.slugify`'s regex. -/
def isSlugChar (c : Char) : Bool := ('a' ≤ c && c ≤ 'z') || ('0' ≤ c && c ≤ '9')

/-- ASCII whitespace stripped by Python `str.strip()`. -/
def isPyWS (c : Char) : Bool :=
  c = ' ' || c = '\t' || c = '\n' || c = '\r' || c = '\x0b' || c = '\x0c'

/-- Python `str.strip` / `str.strip(chars)`: drop matching characters from
both ends. -/
def stripBoth (p : Char → Bool) (l : Str) : Str :=
  ((l.dropWhile p).reverse.dropWhile p).reverse

/-- `re.sub(r"[^a-z0-9]+", "-", s)`, written with an "inside a run" flag so
each maximal run of characters outside `[a-z0-9]` contributes exactly one
hyphen: the hyphen is emitted at the run's first character and the rest of
the run is skipped. -/
def dashRunsAux : Bool → Str → Str
  | _, [] => []
  | inRun, c :: t =>
    if isSlugChar c then c :: dashRunsAux false t
    else if inRun then dashRunsAux true t
    else '-' :: dashRunsAux true t

def dashRuns (l : Str) : Str := dashRunsAux false l

/-- `GroupManager.slugify`: lowercase, strip whitespace, collapse
non-alphanumeric runs to hyphens, strip leading/trailing hyphens. -/
def slugify (name : Str) : Str :=
  stripBoth (fun c => c = '-') (dashRuns (stripBoth isPyWS (lowerStr name)))

/-- `Group.type`: the `Literal["static", "auto"]` field. -/
inductive GType where
  | static
  | auto
deriving DecidableEq, Repr

/-- `GroupMember` (pydantic model). -/
structure GroupMember where
  mac : Str
  «alias» : Option Str := none
deriving DecidableEq, Repr

/-- `AutoGroupRules` (pydantic model): seven optional pattern lists. -/
structure AutoGroupRules where
  vendor : Option (List Str) := none
  name : Option (List Str) := none
  hostname : Option (List Str) := none
  network : Option (List Str) := none
  ip : Option (List Str) := none
  mac : Option (List Str) := none
  conn_type : Option (List Str) := none
deriving DecidableEq, Repr

/-- `Group` (pydantic model); timestamps are abstract instants. -/
structure Group where
  name : Str
  description : Option Str := none
  type : GType := .static
  members : Option (List GroupMember) := none
  rules : Option AutoGroupRules := none
  created_at : Nat
  updated_at : Nat
deriving DecidableEq, Repr

instance : Inhabited Group := ⟨{ name := [], created_at := 0, updated_at := 0 }⟩

/-- `GroupsFile` (pydantic model): the stored document.  The Python `dict`
keyed by slug is an insertion-ordered association list. -/
structure GroupsFile where
  version : Nat := 1
  groups : List (Str × Group) := []
deriving DecidableEq, Repr

/-- Python `d[k]` / `d.get(k)`: first (unique) binding of `k`. -/
def dictGet {α : Type} (k : Str) : List (Str × α) → Option α
  | [] => none
  | (k', v) :: t => if k' == k then some v else dictGet k t

/-- Python `d[k] = v`: update the binding in place, else append. -/
def dictSet {α : Type} (k : Str) (v : α) : List (Str × α) → List (Str × α)
  | [] => [(k, v)]
  | (k', v') :: t => if k' == k then (k', v) :: t else (k', v') :: dictSet k v t

/-- Python `del d[k]`: remove the binding of `k` (keys are unique in a
Python dict, so removing every binding of `k` is the same operation). -/
def dictDel {α : Type} (k : Str) : List (Str × α) → List (Str × α)
  | [] => []
  | (k', v) :: t => if k' == k then dictDel k t else (k', v) :: dictDel k t

theorem dictGet_set_self {α : Type} (k : Str) (v : α) (l : List (Str × α)) :
    dictGet k (dictSet k v l) = some v := by
  induction l with
  | nil => simp [dictGet, dictSet]
  | cons p t ih =>
    obtain ⟨k', v'⟩ := p
    by_cases h : k' == k
    · simp [dictGet, dictSet, h]
    · simp only [dictSet, h, Bool.false_eq_true, if_false]
      simp [dictGet, h, ih]

theorem dictGet_set_ne {α : Type} {k k' : Str} (v : α) (l : List (Str × α))
    (h : k' ≠ k) : dictGet k' (dictSet k v l) = dictGet k' l := by
  induction l with
  | nil => simp [dictGet, dictSet, Ne.symm h]
  | cons p t ih =>
    obtain ⟨k0, v0⟩ := p
    by_cases h0 : k0 == k
    · have hk0 : k0 = k := by simpa using h0
      subst hk0
      simp [dictGet, dictSet, h0, Ne.symm h]
    · simp only [dictSet, h0, Bool.false_eq_true, if_false]
      by_cases h1 : k0 == k'
      · simp [dictGet, h1]
      · simp [dictGet, h1, ih]

theorem dictGet_del_self {α : Type} (k : Str) (l : List (Str × α)) :
    dictGet k (dictDel k l) = none := by
  induction l with
  | nil => simp [dictGet, dictDel]
  | cons p t ih =>
    obtain ⟨k0, v0⟩ := p
    by_cases h0 : k0 == k
    · simp [dictDel, h0, ih]
    · simp [dictDel, h0, dictGet, ih]

theorem dictGet_del_ne {α : Type} {k k' : Str} (h : k' ≠ k) (l : List (Str × α)) :
    dictGet k' (dictDel k l) = dictGet k' l := by
  induction l with
  | nil => simp [dictGet, dictDel]
  | cons p t ih =>
    obtain ⟨k0, v0⟩ := p
    by_cases h0 : k0 == k
    · have hk0 : k0 = k := by simpa using h0
      subst hk0
      simp [dictDel, dictGet, ih, Ne.symm h]
    · by_cases h1 : k0 == k'
      · simp [dictDel, h0, dictGet, h1]
      · simp [dictDel, h0, dictGet, h1, ih]

/-! ## Identifier resolution and group CRUD -/

/-- `GroupManager._resolve_group`: slugify the identifier and look it up as
a key; failing that, first case-insensitive display-name match. -/
def resolve_group (st : GroupsFile) (ident : Str) : Option Str :=
  let slug := slugify ident
  if (dictGet slug st.groups).isSome then some slug
  else (st.groups.find? (fun p => lowerStr p.2.name == lowerStr ident)).map (·.1)

/-- `GroupManager.get_group`. -/
def get_group (st : GroupsFile) (ident : Str) : Option (Str × Group) :=
  match resolve_group st ident with
  | some slug => (dictGet slug st.groups).map (fun g => (slug, g))
  | none => none

/-- `GroupManager.delete_group`; the returned `Bool` is the Python result,
paired with the store after the operation. -/
def delete_group (st : GroupsFile) (ident : Str) : Bool × GroupsFile :=
  match resolve_group st ident with
  | none => (false, st)
  | some slug => (true, { st with groups := dictDel slug st.groups })

/-- The `description=...` not-provided sentinel of `update_group`. -/
inductive DescArg where
  | omit
  | set (d : Option Str)
deriving DecidableEq, Repr

/-- `ValueError("Group ... not found")` raised by `update_group`. -/
inductive UpdateErr where
  | notFound
deriving DecidableEq, Repr

/-- `GroupManager.update_group`.  Python mutates the `Group` object shared
with the dict; here every mutation is re-written into the store at the
resolved slug.  The second `.notFound` branch is unreachable: `resolve_group`
only returns keys present in the map. -/
def update_group (st : GroupsFile) (ident : Str) (new_name : Option Str)
    (descr : DescArg) (now : Nat) : Except UpdateErr (Str × Group × GroupsFile) :=
  match resolve_group st ident with
  | none => .error .notFound
  | some slug =>
    match dictGet slug st.groups with
    | none => .error .notFound
    | some g =>
      let renamed : Str × Group × List (Str × Group) :=
        match new_name with
        | some nn =>
          -- `if new_name:` — Python truthiness skips both None and ""
          if nn.isEmpty then (slug, g, st.groups)
          else
            let g1 := { g with name := nn }
            let ns := slugify nn
            if ns == slug then (slug, g1, dictSet slug g1 st.groups)
            else (ns, g1, dictDel slug (dictSet ns g1 st.groups))
        | none => (slug, g, st.groups)
      match renamed with
      | (slug1, g1, groups1) =>
        let g2 := match descr with
          | .omit => g1
          | .set d => { g1 with description := d }
        let g3 := { g2 with updated_at := now }
        .ok (slug1, g3, { st with groups := dictSet slug1 g3 groups1 })

/-! ## Static-group member operations

All of these resolve their group identifier through `_resolve_group`
(`get_member_macs` via `get_group`); their second `.notFound` branches are
unreachable for the same reason as `update_group`'s. -/

/-- `ValueError("... not found")` or the wrong-kind `ValueError`s of the
member operations. -/
inductive MemberErr where
  | notFound
  | wrongKind
deriving DecidableEq, Repr

/-- `if group.members:` — `None` and `[]` are both falsy. -/
def membersTruthy (o : Option (List GroupMember)) : Bool :=
  match o with
  | some l => !l.isEmpty
  | none => false

/-- `if alias:` — `None` and `""` are both falsy. -/
def aliasTruthy (a : Option Str) : Bool :=
  match a with
  | some s => !s.isEmpty
  | none => false

/-- `add_member`'s duplicate scan: update the first member with this MAC
(alias only when a truthy alias was supplied, which also stamps
`updated_at`); `none` when no member matches. -/
def addUpdateAlias (mac' : Str) (al : Option Str) : List GroupMember → Option (List GroupMember × Bool)
  | [] => none
  | m :: t =>
    if m.mac == mac' then
      if aliasTruthy al then some ({ m with «alias» := al } :: t, true)
      else some (m :: t, false)
    else
      match addUpdateAlias mac' al t with
      | some (t', stamped) => some (m :: t', stamped)
      | none => none

/-- `member.mac == identifier_mac or member.alias == identifier`
(a `None` alias never equals a string). -/
def memberMatches (identMac identifier : Str) (m : GroupMember) : Bool :=
  m.mac == identMac || m.«alias» == some identifier

/-- `GroupManager.add_member`. -/
def add_member (st : GroupsFile) (ident mac : Str) (al : Option Str) (now : Nat) :
    Except MemberErr (Group × GroupsFile) :=
  match resolve_group st ident with
  | none => .error .notFound
  | some slug =>
    match dictGet slug st.groups with
    | none => .error .notFound
    | some g =>
      if g.type != .static then .error .wrongKind
      else
        match (match g.members with
          | some ms => if ms.isEmpty then none else addUpdateAlias (normalize_mac mac) al ms
          | none => none) with
        | some (ms', stamped) =>
          let g' := { g with members := some ms', updated_at := if stamped then now else g.updated_at }
          .ok (g', { st with groups := dictSet slug g' st.groups })
        | none =>
          let g' := { g with members := some ((g.members.getD []) ++ [{ mac := normalize_mac mac, «alias» := al }]), updated_at := now }
          .ok (g', { st with groups := dictSet slug g' st.groups })

/-- `GroupManager.get_member`. -/
def get_member (st : GroupsFile) (ident identifier : Str) :
    Except MemberErr (Option GroupMember) :=
  match resolve_group st ident with
  | none => .error .notFound
  | some slug =>
    match dictGet slug st.groups with
    | none => .error .notFound
    | some g =>
      if g.type != .static || !membersTruthy g.members then .ok none
      else .ok ((g.members.getD []).find? (memberMatches (normalize_mac identifier) identifier))

/-- `update_member`'s scan: rewrite the first matching member's alias
(the `...` sentinel leaves it unchanged); `none` when no member matches. -/
def updateFirst (identMac identifier : Str) (al : DescArg) :
    List GroupMember → Option (List GroupMember)
  | [] => none
  | m :: t =>
    if memberMatches identMac identifier m then
      some ((match al with
        | .omit => m
        | .set d => { m with «alias» := d }) :: t)
    else (updateFirst identMac identifier al t).map (fun t' => m :: t')

/-- `GroupManager.update_member` (stamps `updated_at` on any match, even
when the alias argument was omitted). -/
def update_member (st : GroupsFile) (ident identifier : Str) (al : DescArg) (now : Nat) :
    Except MemberErr (Bool × GroupsFile) :=
  match resolve_group st ident with
  | none => .error .notFound
  | some slug =>
    match dictGet slug st.groups with
    | none => .error .notFound
    | some g =>
      if g.type != .static || !membersTruthy g.members then .ok (false, st)
      else
        match updateFirst (normalize_mac identifier) identifier al (g.members.getD []) with
        | some ms' =>
          let g' := { g with members := some ms', updated_at := now }
          .ok (true, { st with groups := dictSet slug g' st.groups })
        | none => .ok (false, st)

/-- `remove_member`'s scan: drop the first matching member. -/
def removeFirst (identMac identifier : Str) : List GroupMember → Option (List GroupMember)
  | [] => none
  | m :: t =>
    if memberMatches identMac identifier m then some t
    else (removeFirst identMac identifier t).map (fun t' => m :: t')

/-- `GroupManager.remove_member`. -/
def remove_member (st : GroupsFile) (ident identifier : Str) (now : Nat) :
    Except MemberErr (Bool × GroupsFile) :=
  match resolve_group st ident with
  | none => .error .notFound
  | some slug =>
    match dictGet slug st.groups with
    | none => .error .notFound
    | some g =>
      if g.type != .static || !membersTruthy g.members then .ok (false, st)
      else
        match removeFirst (normalize_mac identifier) identifier (g.members.getD []) with
        | some ms' =>
          let g' := { g with members := some ms', updated_at := now }
          .ok (true, { st with groups := dictSet slug g' st.groups })
        | none => .ok (false, st)

/-- `GroupManager.list_members` (`group.members or []`). -/
def list_members (st : GroupsFile) (ident : Str) : Except MemberErr (List GroupMember) :=
  match resolve_group st ident with
  | none => .error .notFound
  | some slug =>
    match dictGet slug st.groups with
    | none => .error .notFound
    | some g =>
      if g.type != .static then .error .wrongKind
      else .ok (g.members.getD [])

/-- `GroupManager.clear_members`. -/
def clear_members (st : GroupsFile) (ident : Str) (now : Nat) :
    Except MemberErr (Bool × GroupsFile) :=
  match resolve_group st ident with
  | none => .error .notFound
  | some slug =>
    match dictGet slug st.groups with
    | none => .error .notFound
    | some g =>
      if g.type != .static then .error .wrongKind
      else
        let g' := { g with members := some [], updated_at := now }
        .ok (true, { st with groups := dictSet slug g' st.groups })

/-- `GroupManager.get_member_macs` (resolves via `get_group`). -/
def get_member_macs (st : GroupsFile) (ident : Str) : Except MemberErr (List Str) :=
  match get_group st ident with
  | none => .error .notFound
  | some (_, g) =>
    if g.type != .static || !membersTruthy g.members then .ok []
    else .ok ((g.members.getD []).map (fun m => m.mac))

/-- C6: renaming a group to a name whose slug differs moves the entry: the
new slug maps to the renamed group, the old slug key is gone, and any group
previously at the new slug has been overwritten by the move. -/
theorem C6_update_group_rename_moves_entry (st : GroupsFile) (ident nn : Str)
    (now : Nat) (slug : Str) (g : Group)
    (h1 : resolve_group st ident = some slug)
    (h2 : dictGet slug st.groups = some g)
    (h3 : nn ≠ [])
    (h4 : slugify nn ≠ slug) :
    ∃ st', update_group st ident (some nn) .omit now =
        .ok (slugify nn, { g with name := nn, updated_at := now }, st') ∧
      dictGet (slugify nn) st'.groups =
        some { g with name := nn, updated_at := now } ∧
      dictGet slug st'.groups = none := by
  have hne : nn.isEmpty = false := by
    cases nn with
    | nil => exact absurd rfl h3
    | cons c t => rfl
  have hbeq : (slugify nn == slug) = false := by
    simpa using h4
  refine ⟨{ st with groups := dictSet (slugify nn) ({ g with name := nn, updated_at := now }) (dictDel slug (dictSet (slugify nn) ({ g with name := nn }) st.groups)) }, ?_, ?_, ?_⟩
  · simp only [update_group, h1, h2, hne, hbeq, Bool.false_eq_true, if_false]
  · exact dictGet_set_self _ _ _
  · rw [dictGet_set_ne _ _ (Ne.symm h4)]
    exact dictGet_del_self _ _

/-- Concrete store for the C6 witness: a group at slug `a` and a different
group already occupying slug `group-b`. -/
def gA : Group := { name := sl "a", type := .static, created_at := 0, updated_at := 0 }

def gB : Group := { name := sl "Group B", type := .static, created_at := 1, updated_at := 1 }

def store6 : GroupsFile := { version := 1, groups := [(sl "a", gA), (sl "group-b", gB)] }

theorem C6_update_group_rename_moves_entry_witness :
    ∃ st', update_group store6 (sl "a") (some (sl "Group B")) .omit 5 =
        .ok (slugify (sl "Group B"), { gA with name := sl "Group B", updated_at := 5 }, st') ∧
      dictGet (slugify (sl "Group B")) st'.groups =
        some { gA with name := sl "Group B", updated_at := 5 } ∧
      dictGet (sl "a") st'.groups = none :=
  C6_update_group_rename_moves_entry store6 (sl "a") (sl "Group B") 5 (sl "a") gA
    (by decide) (by decide) (by decide) (by decide)

/-- Group whose display name (`"Family"`) is unrelated to its slug
(`"kids-devices"`); reachable e.g. by importing such a mapping or by
creating the group under a punctuation-bearing variant of the name. -/
def gFam : Group := { name := sl "Family", type := .static, created_at := 0, updated_at := 0 }

def store7 : GroupsFile := { version := 1, groups := [(sl "kids-devices", gFam)] }

/-- C7 counterexample: `resolve_group` resolves `"Kids Devices"` even though
that identifier is not itself a key of the map and no group's display name
matches it case-insensitively — the code slugifies the identifier before the
key lookup, contradicting the claim's "the identifier itself is already a
key" reading. -/
theorem C7_counterexample_slugified_lookup :
    resolve_group store7 (sl "Kids Devices") = some (sl "kids-devices") ∧
    dictGet (sl "Kids Devices") store7.groups = none ∧
    (lowerStr gFam.name == lowerStr (sl "Kids Devices")) = false := by
  decide

/-- C7 as amended: `resolve_group` succeeds iff the *slugified* identifier is
a key of the map (tried first, winning over name matches) or some group's
display name equals the identifier case-insensitively; and all
list/get/delete/member operations resolve their group identifier through
this rule — each fails with not-found exactly when `resolve_group` does,
and each depends on its identifier only through `resolve_group`'s result
(identifiers that resolve alike are interchangeable). -/
theorem C7_amended_resolve_rule (st : GroupsFile) (ident : Str) :
    ((resolve_group st ident).isSome ↔
      ((dictGet (slugify ident) st.groups).isSome ∨
        ∃ p ∈ st.groups, lowerStr p.2.name = lowerStr ident)) ∧
    ((dictGet (slugify ident) st.groups).isSome →
      resolve_group st ident = some (slugify ident)) ∧
    (resolve_group st ident = none →
      get_group st ident = none ∧ delete_group st ident = (false, st)) ∧
    (∀ slug, resolve_group st ident = some slug →
      get_group st ident = (dictGet slug st.groups).map (fun g => (slug, g)) ∧
      delete_group st ident = (true, { st with groups := dictDel slug st.groups })) ∧
    (∀ mac al now, resolve_group st ident = none →
      add_member st ident mac al now = .error .notFound) ∧
    (∀ ident2 mac al now, resolve_group st ident = resolve_group st ident2 →
      add_member st ident mac al now = add_member st ident2 mac al now) ∧
    (∀ mid, resolve_group st ident = none →
      get_member st ident mid = .error .notFound) ∧
    (∀ ident2 mid, resolve_group st ident = resolve_group st ident2 →
      get_member st ident mid = get_member st ident2 mid) ∧
    (∀ mid al now, resolve_group st ident = none →
      update_member st ident mid al now = .error .notFound) ∧
    (∀ ident2 mid al now, resolve_group st ident = resolve_group st ident2 →
      update_member st ident mid al now = update_member st ident2 mid al now) ∧
    (∀ mid now, resolve_group st ident = none →
      remove_member st ident mid now = .error .notFound) ∧
    (∀ ident2 mid now, resolve_group st ident = resolve_group st ident2 →
      remove_member st ident mid now = remove_member st ident2 mid now) ∧
    (resolve_group st ident = none → list_members st ident = .error .notFound) ∧
    (∀ ident2, resolve_group st ident = resolve_group st ident2 →
      list_members st ident = list_members st ident2) ∧
    (∀ now, resolve_group st ident = none →
      clear_members st ident now = .error .notFound) ∧
    (∀ ident2 now, resolve_group st ident = resolve_group st ident2 →
      clear_members st ident now = clear_members st ident2 now) ∧
    (resolve_group st ident = none → get_member_macs st ident = .error .notFound) ∧
    (∀ ident2, resolve_group st ident = resolve_group st ident2 →
      get_member_macs st ident = get_member_macs st ident2) := by
  refine ⟨?_, ?_, ?_, ?_, ?_, ?_, ?_, ?_, ?_, ?_, ?_, ?_, ?_, ?_, ?_, ?_, ?_, ?_⟩
  · unfold resolve_group
    by_cases h : (dictGet (slugify ident) st.groups).isSome
    · simp [h]
    · simp only [h, Bool.false_eq_true, if_false, Option.isSome_map']
      rw [List.find?_isSome]
      simp [h]
  · intro h
    unfold resolve_group
    simp [h]
  · intro h
    constructor
    · unfold get_group
      rw [h]
    · unfold delete_group
      rw [h]
  · intro slug h
    constructor
    · unfold get_group
      rw [h]
    · unfold delete_group
      rw [h]
  · intro mac al now h
    unfold add_member
    rw [h]
  · intro ident2 mac al now h
    unfold add_member
    rw [h]
  · intro mid h
    unfold get_member
    rw [h]
  · intro ident2 mid h
    unfold get_member
    rw [h]
  · intro mid al now h
    unfold update_member
    rw [h]
  · intro ident2 mid al now h
    unfold update_member
    rw [h]
  · intro mid now h
    unfold remove_member
    rw [h]
  · intro ident2 mid now h
    unfold remove_member
    rw [h]
  · intro h
    unfold list_members
    rw [h]
  · intro ident2 h
    unfold list_members
    rw [h]
  · intro now h
    unfold clear_members
    rw [h]
  · intro ident2 now h
    unfold clear_members
    rw [h]
  · intro h
    unfold get_member_macs get_group
    rw [h]
  · intro ident2 h
    unfold get_member_macs get_group
    rw [h]

theorem C7_amended_resolve_rule_witness :
    ((resolve_group store7 (sl "family")).isSome ↔
      ((dictGet (slugify (sl "family")) store7.groups).isSome ∨
        ∃ p ∈ store7.groups, lowerStr p.2.name = lowerStr (sl "family"))) ∧
    list_members store7 (sl "unknown-group") = .error .notFound ∧
    get_member_macs store7 (sl "Family") = get_member_macs store7 (sl "kids-devices") :=
  ⟨(C7_amended_resolve_rule store7 (sl "family")).1,
   (C7_amended_resolve_rule store7
      (sl "unknown-group")).2.2.2.2.2.2.2.2.2.2.2.2.1 (by decide),
   (C7_amended_resolve_rule store7
      (sl "Family")).2.2.2.2.2.2.2.2.2.2.2.2.2.2.2.2.2 (sl "kids-devices") (by decide)⟩

/-! ## Wildcard (fnmatch) matching

`pattern_matches` delegates wildcard patterns to
`fnmatch.fnmatch(value.lower(), pattern.lower())`, which matches the whole
value against the shell-style pattern: `*` is any run, `?` any single
character, `[...]`/`[!...]` a (negated) character set with ranges, an
unterminated `[` is a literal bracket, and a `]` directly after `[` or `[!`
belongs to the set.  The lexer below is that grammar as a single
left-to-right pass; the recovery token list for an unterminated `[`
re-reads the consumed characters as plain tokens, which is exactly what
`fnmatch` does since none of them can be `]`. -/

/-- All suffixes of a string, longest first (used for `*` backtracking and
for unanchored regex search). -/
def suffixes : Str → List Str
  | [] => [[]]
  | c :: t => (c :: t) :: suffixes t

inductive GlobTok where
  | star
  | anyc
  | lit (c : Char)
  | cls (neg : Bool) (body : List Char)
deriving DecidableEq, Repr

/-- Characters with no `]` anywhere read as plain tokens. -/
def lexPlain (l : List Char) : List GlobTok :=
  l.map (fun c => if c = '*' then .star else if c = '?' then .anyc else .lit c)

/-- Lexer state: outside a set, just after `[`, just after `[!`, or inside
a set body (negation flag, reversed accumulated body). -/
inductive GlobLexSt where
  | norm
  | cs0
  | cs1
  | body (neg : Bool) (acc : List Char)

def globLexAux : GlobLexSt → List Char → List GlobTok
  | .norm, [] => []
  | .norm, '*' :: t => .star :: globLexAux .norm t
  | .norm, '?' :: t => .anyc :: globLexAux .norm t
  | .norm, '[' :: t => globLexAux .cs0 t
  | .norm, c :: t => .lit c :: globLexAux .norm t
  | .cs0, [] => [.lit '[']
  | .cs0, '!' :: t => globLexAux .cs1 t
  | .cs0, c :: t => globLexAux (.body false [c]) t
  | .cs1, [] => [.lit '[', .lit '!']
  | .cs1, c :: t => globLexAux (.body true [c]) t
  | .body neg acc, [] => .lit '[' :: lexPlain (if neg then '!' :: acc.reverse else acc.reverse)
  | .body neg acc, ']' :: t =>
    -- a `]` in first body position was consumed by the `cs0`/`cs1` arms
    .cls neg acc.reverse :: globLexAux .norm t
  | .body neg acc, c :: t => globLexAux (.body neg (c :: acc)) t

def globLex (l : List Char) : List GlobTok := globLexAux .norm l

/-- Membership in a set body: `a-b` is a range (matching nothing when
reversed, as in `fnmatch`), other characters are singletons; a trailing
`-` is a literal. -/
def classBodyMatch : List Char → Char → Bool
  | a :: '-' :: b :: rest, c => (a ≤ c && c ≤ b) || classBodyMatch rest c
  | a :: rest, c => (a == c) || classBodyMatch rest c
  | [], _ => false

/-- Whole-string shell-style match of a token list (`fnmatch` anchors both
ends). -/
def globMatch : List GlobTok → Str → Bool
  | [], s => s.isEmpty
  | .star :: ps, s => (suffixes s).any (fun s' => globMatch ps s')
  | .anyc :: ps, s =>
    match s with
    | [] => false
    | _ :: s' => globMatch ps s'
  | .lit c :: ps, s =>
    match s with
    | [] => false
    | d :: s' => (d == c) && globMatch ps s'
  | .cls neg body :: ps, s =>
    match s with
    | [] => false
    | d :: s' => (classBodyMatch body d != neg) && globMatch ps s'

/-! ## Regular-expression matching (the `~` prefix)

`pattern_matches` hands `pattern[1:]` to `re.search(..., re.IGNORECASE)`
and maps `re.error` to `False`.  The embedding covers the regex subset the
rule syntax uses: literal characters, `.`, character classes with ranges
and `^`-negation, the `*`/`+`/`?` quantifiers on single atoms, and the
`^`/`$` anchors at the pattern's ends.  Constructs outside this subset
parse to `none`; genuinely malformed inputs (`[` unterminated, a reversed
range, a quantifier with nothing to repeat) are `re.error` in Python and
also parse to `none`.  `re.IGNORECASE` is modelled by comparing
case-folded characters (ASCII). -/

inductive RAtom where
  | lit (c : Char)
  | dot
  | cls (neg : Bool) (items : List (Char × Char))
deriving DecidableEq, Repr

inductive RPiece where
  | once (a : RAtom)
  | star (a : RAtom)
  | plus (a : RAtom)
  | opt (a : RAtom)
deriving DecidableEq, Repr

structure RE where
  anchorS : Bool
  pieces : List RPiece
  anchorE : Bool
deriving DecidableEq, Repr

/-- Class-body parser state: `fresh` (nothing pending), `pend a` (a
character that may start a range), `dash a` (saw `a-`). -/
inductive ClsMode where
  | fresh
  | pend (a : Char)
  | dash (a : Char)

/-- Regex parser state: toplevel, just after `[`, just after `[^`, or
inside a class body. -/
inductive RSt where
  | norm
  | cs0
  | cs1
  | inCls (neg : Bool) (items : List (Char × Char)) (mode : ClsMode)

/-- One-pass parser for the regex subset; `acc` holds the pieces in
reverse.  Returns the pieces and the end-anchor flag. -/
def rparse : RSt → List RPiece → List Char → Option (List RPiece × Bool)
  | .norm, acc, [] => some (acc.reverse, false)
  | .norm, acc, ['$'] => some (acc.reverse, true)
  | .norm, acc, '*' :: t =>
    match acc with
    | .once a :: rest => rparse .norm (.star a :: rest) t
    | _ => none
  | .norm, acc, '+' :: t =>
    match acc with
    | .once a :: rest => rparse .norm (.plus a :: rest) t
    | _ => none
  | .norm, acc, '?' :: t =>
    match acc with
    | .once a :: rest => rparse .norm (.opt a :: rest) t
    | _ => none
  | .norm, acc, '.' :: t => rparse .norm (.once .dot :: acc) t
  | .norm, acc, '[' :: t => rparse .cs0 acc t
  | .norm, _, '^' :: _ => none
  | .norm, _, '$' :: _ => none
  | .norm, _, '\\' :: _ => none
  | .norm, _, '(' :: _ => none
  | .norm, _, ')' :: _ => none
  | .norm, _, '|' :: _ => none
  | .norm, _, '{' :: _ => none
  | .norm, _, '}' :: _ => none
  | .norm, acc, c :: t => rparse .norm (.once (.lit c) :: acc) t
  | .cs0, _, [] => none
  | .cs0, acc, '^' :: t => rparse .cs1 acc t
  | .cs0, _, '\\' :: _ => none
  | .cs0, acc, c :: t => rparse (.inCls false [] (.pend c)) acc t
  | .cs1, _, [] => none
  | .cs1, _, '\\' :: _ => none
  | .cs1, acc, c :: t => rparse (.inCls true [] (.pend c)) acc t
  | .inCls _ _ _, _, [] => none
  | .inCls _ _ _, _, '\\' :: _ => none
  | .inCls neg items .fresh, acc, ']' :: t =>
    rparse .norm (.once (.cls neg items.reverse) :: acc) t
  | .inCls neg items (.pend a), acc, ']' :: t =>
    rparse .norm (.once (.cls neg ((a, a) :: items).reverse) :: acc) t
  | .inCls neg items (.dash a), acc, ']' :: t =>
    rparse .norm (.once (.cls neg (('-', '-') :: (a, a) :: items).reverse) :: acc) t
  | .inCls neg items (.pend a), acc, '-' :: t => rparse (.inCls neg items (.dash a)) acc t
  | .inCls neg items .fresh, acc, c :: t => rparse (.inCls neg items (.pend c)) acc t
  | .inCls neg items (.pend a), acc, c :: t => rparse (.inCls neg ((a, a) :: items) (.pend c)) acc t
  | .inCls neg items (.dash a), acc, c :: t =>
    if a ≤ c then rparse (.inCls neg ((a, c) :: items) .fresh) acc t
    else none

/-- `GroupManager.pattern_matches`' regex compilation: a leading `^`
anchors the search at the start; the rest is parsed by `rparse`. -/
def parseRE (l : List Char) : Option RE :=
  match l with
  | '^' :: t => (rparse .norm [] t).map (fun p => ⟨true, p.1, p.2⟩)
  | _ => (rparse .norm [] l).map (fun p => ⟨false, p.1, p.2⟩)

/-- Case-insensitive character comparison (`re.IGNORECASE`, ASCII). -/
def ciEq (a b : Char) : Bool := a.toLower == b.toLower

def inRange (a b c : Char) : Bool :=
  (a ≤ c && c ≤ b) || (a ≤ c.toLower && c.toLower ≤ b) || (a ≤ c.toUpper && c.toUpper ≤ b)

def atomMatch : RAtom → Char → Bool
  | .lit x, c => ciEq x c
  | .dot, c => c != '\n'
  | .cls neg items, c => (items.any (fun p => inRange p.1 p.2 c)) != neg

/-- The suffixes reachable from `s` by consuming zero or more characters
matching atom `a` (the backtracking choices of `a*`). -/
def starChain (a : RAtom) : Str → List Str
  | [] => [[]]
  | c :: t => (c :: t) :: (if atomMatch a c then starChain a t else [])

/-- Match a piece sequence at the start of `s`; with `anchE` the match
must consume all of `s` (the `$` anchor). -/
def reMatch : List RPiece → Bool → Str → Bool
  | [], anchE, s => !anchE || s.isEmpty
  | .once a :: ps, anchE, s =>
    match s with
    | [] => false
    | c :: s' => atomMatch a c && reMatch ps anchE s'
  | .opt a :: ps, anchE, s =>
    (match s with
     | [] => false
     | c :: s' => atomMatch a c && reMatch ps anchE s') || reMatch ps anchE s
  | .star a :: ps, anchE, s => (starChain a s).any (fun s' => reMatch ps anchE s')
  | .plus a :: ps, anchE, s =>
    match s with
    | [] => false
    | c :: s' => atomMatch a c && (starChain a s').any (fun s'' => reMatch ps anchE s'')

/-- `re.search`: try the match at every start position; `^` restricts to
the start of the string. -/
def reSearch (r : RE) (v : Str) : Bool :=
  if r.anchorS then reMatch r.pieces r.anchorE v
  else (suffixes v).any (fun s => reMatch r.pieces r.anchorE s)

/-! ## `GroupManager.pattern_matches` -/

/-- Python `pattern.split(",")`. -/
def splitOnChar (sep : Char) : Str → List Str
  | [] => [[]]
  | c :: t =>
    if c == sep then [] :: splitOnChar sep t
    else
      match splitOnChar sep t with
      | h :: r => (c :: h) :: r
      | [] => [[c]]

/-- The non-comma dispatch of `pattern_matches`: empty guard, `~` regex,
`*`/`?` wildcard, case-insensitive exact equality. -/
def pattern_matches_nocomma (pattern value : Str) : Bool :=
  if pattern.isEmpty || value.isEmpty then false
  else if pattern.head? == some '~' then
    match parseRE pattern.tail with
    | some r => reSearch r value
    | none => false
  else if pattern.contains '*' || pattern.contains '?' then
    globMatch (globLex (lowerStr pattern)) (lowerStr value)
  else lowerStr value == lowerStr pattern

/-- `GroupManager.pattern_matches`.  The Python code recurses on the
comma-split pieces; a piece contains no comma, so the recursive call takes
the non-comma dispatch (`pattern_matches_of_no_comma` below makes this
exact). -/
def pattern_matches (pattern value : Str) : Bool :=
  if pattern.isEmpty || value.isEmpty then false
  else if pattern.contains ',' && !(pattern.head? == some '~') then
    ((splitOnChar ',' pattern).map (stripBoth isPyWS)).any
      (fun p => pattern_matches_nocomma p value)
  else pattern_matches_nocomma pattern value

theorem not_mem_splitOnChar (sep : Char) :
    ∀ (l : Str), ∀ p ∈ splitOnChar sep l, sep ∉ p := by
  intro l
  induction l with
  | nil =>
    intro p hp
    simp [splitOnChar] at hp
    simp [hp]
  | cons c t ih =>
    intro p hp
    by_cases hc : c == sep
    · simp only [splitOnChar, hc, if_true] at hp
      rcases List.mem_cons.1 hp with rfl | hp'
      · simp
      · exact ih p hp'
    · simp only [splitOnChar, hc, Bool.false_eq_true, if_false] at hp
      rcases hrec : splitOnChar sep t with _ | ⟨h, r⟩
      · rw [hrec] at hp
        rcases List.mem_cons.1 hp with rfl | hp'
        · intro hm
          rcases List.mem_singleton.1 hm with rfl
          simp at hc
        · simp at hp'
      · rw [hrec] at hp
        rcases List.mem_cons.1 hp with rfl | hp'
        · intro hm
          rcases List.mem_cons.1 hm with rfl | hm'
          · simp at hc
          · exact ih h (by rw [hrec]; exact List.mem_cons_self h r) hm'
        · exact ih p (by rw [hrec]; exact List.mem_cons_of_mem h hp')

theorem mem_stripBoth {c : Char} {f : Char → Bool} {l : Str}
    (h : c ∈ stripBoth f l) : c ∈ l := by
  unfold stripBoth at h
  have h1 := List.mem_reverse.1 h
  have h2 := List.dropWhile_sublist (l := (l.dropWhile f).reverse) (p := f) |>.mem h1
  have h3 := List.mem_reverse.1 h2
  exact (List.dropWhile_sublist (l := l) (p := f)).mem h3

theorem pattern_matches_nil_value (p : Str) : pattern_matches p [] = false := by
  simp [pattern_matches]

theorem pattern_matches_of_no_comma (p v : Str) (h : ¬ ',' ∈ p) :
    pattern_matches p v = pattern_matches_nocomma p v := by
  unfold pattern_matches
  by_cases he : p.isEmpty || v.isEmpty
  · rw [if_pos he]
    unfold pattern_matches_nocomma
    rw [if_pos he]
  · rw [if_neg he]
    have hc : p.contains ',' = false := by
      simp [List.contains, h]
    rw [hc]
    simp

/-- Helper: pointwise equal predicates give equal `any`. -/
theorem any_congr_mem {α : Type} {l : List α} {f g : α → Bool}
    (h : ∀ x ∈ l, f x = g x) : l.any f = l.any g := by
  induction l with
  | nil => rfl
  | cons x t ih =>
    simp only [List.any_cons]
    rw [h x (List.mem_cons_self x t), ih (fun y hy => h y (List.mem_cons_of_mem x hy))]

/-- C2: `pattern_matches` dispatches on the pattern's shape — comma-OR over
trimmed pieces (each piece matched recursively), `~`-prefixed
case-insensitive unanchored regex search, `*`/`?` case-insensitive
whole-value glob, otherwise case-insensitive equality; empty pattern or
value is `false`; and the specification's five concrete examples hold. -/
theorem C2_pattern_matches_dispatch :
    (∀ p v : Str, p = [] ∨ v = [] → pattern_matches p v = false) ∧
    (∀ p v : Str, ',' ∈ p → p.head? ≠ some '~' →
      pattern_matches p v =
        ((splitOnChar ',' p).map (stripBoth isPyWS)).any (fun q => pattern_matches q v)) ∧
    (∀ p v : Str, v ≠ [] →
      pattern_matches ('~' :: p) v =
        (match parseRE p with
         | some r => reSearch r v
         | none => false)) ∧
    (∀ p v : Str, p ≠ [] → v ≠ [] → p.head? ≠ some '~' → ¬ ',' ∈ p →
      ('*' ∈ p ∨ '?' ∈ p) →
      pattern_matches p v = globMatch (globLex (lowerStr p)) (lowerStr v)) ∧
    (∀ p v : Str, p ≠ [] → v ≠ [] → p.head? ≠ some '~' → ¬ ',' ∈ p →
      ¬ '*' ∈ p → ¬ '?' ∈ p →
      pattern_matches p v = (lowerStr v == lowerStr p)) ∧
    pattern_matches (sl "*phone*") (sl "iPhone") = true ∧
    pattern_matches (sl "iPhone*") (sl "My iPhone") = false ∧
    pattern_matches (sl "~^iPhone-[0-9]+$") (sl "iPhone-12") = true ∧
    pattern_matches (sl "~^iPhone-[0-9]+$") (sl "iPhoneXR") = false ∧
    pattern_matches (sl "Apple,Samsung") (sl "Samsung") = true := by
  refine ⟨?_, ?_, ?_, ?_, ?_, ?_, ?_, ?_, ?_, ?_⟩
  · intro p v h
    rcases h with rfl | rfl
    · simp [pattern_matches]
    · exact pattern_matches_nil_value p
  · intro p v hc hh
    by_cases hv : v = []
    · subst hv
      rw [pattern_matches_nil_value]
      have : ∀ q ∈ (splitOnChar ',' p).map (stripBoth isPyWS),
          pattern_matches q [] = false := fun q _ => pattern_matches_nil_value q
      rw [List.any_eq_false.2 (by intro q hq; simp [this q hq])]
    · have hp : p ≠ [] := by
        intro h
        subst h
        simp at hc
    -- the comma branch fires, and each split piece has no comma
      have he : (p.isEmpty || v.isEmpty) = false := by
        cases p with
        | nil => exact absurd rfl hp
        | cons a t =>
          cases v with
          | nil => exact absurd rfl hv
          | cons b u => rfl
      have hcb : (p.contains ',' && !(p.head? == some '~')) = true := by
        have h1 : p.contains ',' = true := by
          simp [List.contains]
          exact hc
        have h2 : (p.head? == some '~') = false := by
          simp
          intro hx
          exact hh (by simp [hx])
        rw [h1, h2]
        rfl
      unfold pattern_matches
      rw [he, hcb]
      simp only [Bool.false_eq_true, if_false, if_true]
      apply any_congr_mem
      intro q hq
      obtain ⟨q0, hq0, rfl⟩ := List.mem_map.1 hq
      have hnc : ¬ ',' ∈ stripBoth isPyWS q0 := fun hm =>
        not_mem_splitOnChar ',' p q0 hq0 (mem_stripBoth hm)
      exact (pattern_matches_of_no_comma _ v hnc).symm
  · intro p v hv
    have he : (('~' :: p).isEmpty || v.isEmpty) = false := by
      cases v with
      | nil => exact absurd rfl hv
      | cons b u => rfl
    unfold pattern_matches
    rw [he]
    have hcb : (('~' :: p).contains ',' && !(('~' :: p).head? == some '~')) = false := by
      simp
    rw [hcb]
    simp only [Bool.false_eq_true, if_false]
    unfold pattern_matches_nocomma
    rw [he]
    simp
  · intro p v hp hv hh hc hw
    rw [pattern_matches_of_no_comma p v hc]
    have he : (p.isEmpty || v.isEmpty) = false := by
      cases p with
      | nil => exact absurd rfl hp
      | cons a t =>
        cases v with
        | nil => exact absurd rfl hv
        | cons b u => rfl
    have hh' : (p.head? == some '~') = false := by
      simp
      intro hx
      exact hh (by simp [hx])
    have hw' : (p.contains '*' || p.contains '?') = true := by
      rcases hw with h | h
      · have h1 : p.contains '*' = true := by
          simp [List.contains]
          exact h
        rw [h1]
        rfl
      · have h1 : p.contains '?' = true := by
          simp [List.contains]
          exact h
        rw [h1, Bool.or_true]
    unfold pattern_matches_nocomma
    rw [he, hh', hw']
    simp
  · intro p v hp hv hh hc hs hq
    rw [pattern_matches_of_no_comma p v hc]
    have he : (p.isEmpty || v.isEmpty) = false := by
      cases p with
      | nil => exact absurd rfl hp
      | cons a t =>
        cases v with
        | nil => exact absurd rfl hv
        | cons b u => rfl
    have hh' : (p.head? == some '~') = false := by
      simp
      intro hx
      exact hh (by simp [hx])
    have hw' : (p.contains '*' || p.contains '?') = false := by
      have h1 : p.contains '*' = false := by
        simp [List.contains]
        exact hs
      have h2 : p.contains '?' = false := by
        simp [List.contains]
        exact hq
      rw [h1, h2]
      rfl
    unfold pattern_matches_nocomma
    rw [he, hh', hw']
    simp
  · decide
  · decide
  · decide
  · decide
  · decide

theorem C2_pattern_matches_dispatch_witness :
    pattern_matches (sl "Apple,Samsung") (sl "Samsung") =
      ((splitOnChar ',' (sl "Apple,Samsung")).map (stripBoth isPyWS)).any
        (fun q => pattern_matches q (sl "Samsung")) :=
  C2_pattern_matches_dispatch.2.1 (sl "Apple,Samsung") (sl "Samsung")
    (by decide) (by decide)

/-! ## `GroupManager.ip_matches`

The `ipaddress` module's behaviour, embedded: `ip_address` parses strict
dotted-quad IPv4 (each octet 1–3 decimal digits, ≤ 255, no leading zeros)
or else IPv6 (hex hextets with at most one `::`; the embedded-IPv4 and
zone-id forms are outside the subset and parse to `none`);
`ip_network(..., strict=False)` additionally takes a `/`-prefix length and
masks the host bits (the dotted-netmask spelling is outside the subset);
network membership compares the masked values and is `False` across
versions; an order comparison across versions raises `TypeError`, which
`ip_matches` does **not** catch (its `except` clause only covers
`ValueError`). -/

/-- Python `int(s, 10)` on an all-digit string. -/
def strToNat (l : Str) : Nat := l.foldl (fun a c => a * 10 + (c.toNat - 48)) 0

def parseOctet (l : Str) : Option Nat :=
  if l.isEmpty then none
  else if !l.all Char.isDigit then none
  else if l.length > 3 then none
  else if l.head? != some '0' || l == ['0'] then
    if strToNat l ≤ 255 then some (strToNat l) else none
  else none

def parseIPv4 (l : Str) : Option Nat :=
  match splitOnChar '.' l with
  | [a, b, c, d] =>
    match parseOctet a with
    | none => none
    | some a' =>
      match parseOctet b with
      | none => none
      | some b' =>
        match parseOctet c with
        | none => none
        | some c' =>
          match parseOctet d with
          | none => none
          | some d' => some (((a' * 256 + b') * 256 + c') * 256 + d')
  | _ => none

def isHexDigit (c : Char) : Bool :=
  c.isDigit || ('a' ≤ c && c ≤ 'f') || ('A' ≤ c && c ≤ 'F')

def hexVal (c : Char) : Nat :=
  if c.isDigit then c.toNat - 48
  else if 'a' ≤ c && c ≤ 'f' then c.toNat - 87
  else c.toNat - 55

/-- An IPv6 hextet: one to four hex digits. -/
def parseHextet (l : Str) : Option Nat :=
  if l.isEmpty || l.length > 4 || !l.all isHexDigit then none
  else some (l.foldl (fun a c => a * 16 + hexVal c) 0)

/-- IPv6 parse, following `ipaddress._ip_int_from_string`'s handling of a
single `::` compression. -/
def parseIPv6 (l : Str) : Option Nat :=
  let parts := splitOnChar ':' l
  let n := parts.length
  if n < 3 then none
  else if l.contains '.' || l.contains '%' then none
  else
    let internalEmpties :=
      (List.range n).filter (fun i => 1 ≤ i && i + 1 < n && (parts.getD i [':']).isEmpty)
    match internalEmpties with
    | _ :: _ :: _ => none
    | [i] =>
      let firstEmpty := (parts.getD 0 [':']).isEmpty
      let lastEmpty := (parts.getD (n - 1) [':']).isEmpty
      let partsHi := if firstEmpty then i - 1 else i
      let partsLo0 := n - i - 1
      let partsLo := if lastEmpty then partsLo0 - 1 else partsLo0
      if firstEmpty && decide (partsHi ≠ 0) then none
      else if lastEmpty && decide (partsLo ≠ 0) then none
      else if partsHi + partsLo > 7 then none
      else
        match (parts.take partsHi).mapM parseHextet,
            (parts.drop (n - partsLo)).mapM parseHextet with
        | some hs, some ls =>
          let v1 := hs.foldl (fun a h => a * 65536 + h) 0
          let skipped := 8 - (partsHi + partsLo)
          some (ls.foldl (fun a h => a * 65536 + h) (v1 * 65536 ^ skipped))
        | _, _ => none
    | [] =>
      if n != 8 then none
      else if (parts.getD 0 [':']).isEmpty || (parts.getD 7 [':']).isEmpty then none
      else
        match parts.mapM parseHextet with
        | some hs => some (hs.foldl (fun a h => a * 65536 + h) 0)
        | none => none

/-- A parsed `ipaddress` address: version tag and integer value. -/
inductive IPAddr where
  | v4 (n : Nat)
  | v6 (n : Nat)
deriving DecidableEq, Repr

/-- `ipaddress.ip_address(str)`: IPv4 first, then IPv6. -/
def ip_address_parse (l : Str) : Option IPAddr :=
  match parseIPv4 l with
  | some n => some (.v4 n)
  | none => (parseIPv6 l).map .v6

/-- Prefix length: decimal digits, bounded by the version's bit width. -/
def parsePrefixLen (l : Str) (maxLen : Nat) : Option Nat :=
  if l.isEmpty || !l.all Char.isDigit then none
  else if strToNat l ≤ maxLen then some (strToNat l) else none

/-- `ipaddress.ip_network(pattern, strict=False)`: the masked network
value and the prefix length.  `addr & netmask` with the high-`n`-bits
netmask equals clearing the low `width - n` bits, i.e.
`addr / 2^(width-n) * 2^(width-n)`. -/
def ip_network_parse (l : Str) : Option (IPAddr × Nat) :=
  match splitOnChar '/' l with
  | [addr, pfx] =>
    (match parseIPv4 addr with
     | some a =>
       (parsePrefixLen pfx 32).map
         (fun n => (IPAddr.v4 (a / 2 ^ (32 - n) * 2 ^ (32 - n)), n))
     | none =>
       match parseIPv6 addr with
       | some a =>
         (parsePrefixLen pfx 128).map
           (fun n => (IPAddr.v6 (a / 2 ^ (128 - n) * 2 ^ (128 - n)), n))
       | none => none)
  | _ => none

/-- `ip_address(ip) in network`: `False` across versions, else masked
comparison. -/
def inNetwork (t : IPAddr) (net : IPAddr × Nat) : Bool :=
  match t, net with
  | .v4 x, (.v4 a, n) => x / 2 ^ (32 - n) * 2 ^ (32 - n) == a
  | .v6 x, (.v6 a, n) => x / 2 ^ (128 - n) * 2 ^ (128 - n) == a
  | _, _ => false

/-- The `TypeError` that `ipaddress` raises when ordering addresses of
different versions — not caught by `ip_matches`' `except ValueError`. -/
inductive PyErr where
  | typeError
deriving DecidableEq, Repr

instance {ε α : Type} [DecidableEq ε] [DecidableEq α] : DecidableEq (Except ε α) := fun x y =>
  match x, y with
  | .ok a, .ok b =>
    if h : a = b then .isTrue (by rw [h])
    else .isFalse (by intro hc; cases hc; exact h rfl)
  | .error a, .error b =>
    if h : a = b then .isTrue (by rw [h])
    else .isFalse (by intro hc; cases hc; exact h rfl)
  | .ok _, .error _ => .isFalse (by intro hc; cases hc)
  | .error _, .ok _ => .isFalse (by intro hc; cases hc)

/-- `a <= b` on parsed addresses. -/
def cmpLe : IPAddr → IPAddr → Except PyErr Bool
  | .v4 a, .v4 b => .ok (decide (a ≤ b))
  | .v6 a, .v6 b => .ok (decide (a ≤ b))
  | _, _ => .error .typeError

/-- Python `s.rsplit(sep, 1)` when `sep ∈ s`: the parts before and after
the last separator. -/
def rsplit1 (sep : Char) (l : Str) : Str × Str :=
  let after := (l.reverse.takeWhile (fun c => c != sep)).reverse
  (l.take (l.length - after.length - 1), after)

/-- `f"{base.rsplit('.', 1)[0]}.{end}"`: the right side of a dash range
replaces the last octet of the left side. -/
def lastOctetSubst (base endp : Str) : Str :=
  (if base.contains '.' then (rsplit1 '.' base).1 else base) ++ '.' :: endp

/-- `GroupManager.ip_matches`.  The chained Python comparison
`start_ip <= target <= end_ip` short-circuits: the second comparison is
only evaluated when the first is true. -/
def ip_matches (pattern ip : Str) : Except PyErr Bool :=
  if pattern.isEmpty || ip.isEmpty then .ok false
  else if pattern.contains '/' then
    .ok (match ip_network_parse pattern, ip_address_parse ip with
         | some net, some t => inNetwork t net
         | _, _ => false)
  else if pattern.contains '-' && !(pattern.head? == some '-') then
    match rsplit1 '-' pattern with
    | (base, endp) =>
      match ip_address_parse base with
      | none => .ok false
      | some s =>
        match ip_address_parse (if endp.contains '.' then endp else lastOctetSubst base endp) with
        | none => .ok false
        | some e =>
          match ip_address_parse ip with
          | none => .ok false
          | some t => do
            let b1 ← cmpLe s t
            if b1 then cmpLe t e else pure false
  else .ok (pattern_matches pattern ip)

/-- Clearing the low `k` bits of `x` yields `a` exactly when `x` lies in
the aligned block `[a, a + 2^k)`. -/
theorem masked_eq_iff {k a x : Nat} (hd : 2 ^ k ∣ a) :
    (x / 2 ^ k * 2 ^ k = a) ↔ (a ≤ x ∧ x < a + 2 ^ k) := by
  have hpos : 0 < 2 ^ k := Nat.pos_pow_of_pos k (by omega)
  constructor
  · rintro rfl
    exact ⟨Nat.div_mul_le_self x _, Nat.lt_div_mul_add hpos⟩
  · rintro ⟨h1, h2⟩
    obtain ⟨c, rfl⟩ := hd
    have : x / 2 ^ k = c := by
      apply Nat.div_eq_of_lt_le
      · rw [Nat.mul_comm] at h1
        exact h1
      · calc x < 2 ^ k * c + 2 ^ k := h2
          _ = (c + 1) * 2 ^ k := by ring
    rw [this, Nat.mul_comm]

theorem parsePrefixLen_le {l : Str} {m v : Nat} (h : parsePrefixLen l m = some v) :
    v ≤ m := by
  unfold parsePrefixLen at h
  split at h
  · exact absurd h (by simp)
  · split at h
    · injection h with h
      omega
    · exact absurd h (by simp)

/-- The network value produced by `ip_network_parse` is block-aligned and
its prefix is within the version's width. -/
theorem ip_network_parse_v4_shape {p : Str} {a n : Nat}
    (h : ip_network_parse p = some (.v4 a, n)) : 2 ^ (32 - n) ∣ a ∧ n ≤ 32 := by
  unfold ip_network_parse at h
  split at h
  · rename_i addr pfx heq
    split at h
    · rename_i a0 ha0
      rcases hp : parsePrefixLen pfx 32 with _ | v
      · rw [hp] at h
        simp at h
      · rw [hp] at h
        simp only [Option.map] at h
        injection h with h
        injection h with h1 h2
        injection h1 with h1
        subst h2
        subst h1
        exact ⟨dvd_mul_left _ _, parsePrefixLen_le hp⟩
    · split at h
      · rename_i a0 ha0
        rcases hp : parsePrefixLen pfx 128 with _ | v <;> rw [hp] at h <;> simp at h
      · simp at h
  · simp at h

theorem ip_address_parse_nil : ip_address_parse [] = none := by decide

/-- C3: a `/` pattern is CIDR membership in the aligned block of the
masked network; a `-` pattern (dash not first) splits at the last dash,
the right side being a full address when dotted and otherwise replacing
the left side's last octet, and matches exactly when
`start ≤ address ≤ end` in the unsigned integer ordering (all parsed IPv4
values are 32-bit); any other pattern delegates to `pattern_matches`; and
the specification's four concrete examples hold. -/
theorem C3_ip_matches_cidr_range_delegate :
    (∀ l : Str, ∀ x, ip_address_parse l = some (.v4 x) → x < 2 ^ 32) ∧
    (∀ p ip : Str, ∀ a n x, '/' ∈ p →
      ip_network_parse p = some (.v4 a, n) →
      ip_address_parse ip = some (.v4 x) →
      ip_matches p ip = .ok (decide (a ≤ x ∧ x < a + 2 ^ (32 - n)))) ∧
    (∀ p ip base endp : Str, ∀ s e t, ¬ '/' ∈ p → '-' ∈ p → p.head? ≠ some '-' →
      rsplit1 '-' p = (base, endp) →
      ip_address_parse base = some (.v4 s) →
      ip_address_parse (if endp.contains '.' then endp else lastOctetSubst base endp) =
        some (.v4 e) →
      ip_address_parse ip = some (.v4 t) →
      ip_matches p ip = .ok (decide (s ≤ t ∧ t ≤ e))) ∧
    (∀ p ip : Str, ¬ '/' ∈ p → (¬ '-' ∈ p ∨ p.head? = some '-') →
      ip_matches p ip = .ok (pattern_matches p ip)) ∧
    ip_matches (sl "192.168.1.100-200") (sl "192.168.1.150") = .ok true ∧
    ip_matches (sl "192.168.1.100-200") (sl "192.168.1.50") = .ok false ∧
    ip_matches (sl "192.168.1.0/24") (sl "192.168.1.1") = .ok true ∧
    ip_matches (sl "192.168.1.0/24") (sl "192.168.2.1") = .ok false := by
  have hoct : ∀ q : Str, ∀ v, parseOctet q = some v → v ≤ 255 := by
    intro q v hq
    unfold parseOctet at hq
    split at hq
    · exact absurd hq (by simp)
    · split at hq
      · exact absurd hq (by simp)
      · split at hq
        · exact absurd hq (by simp)
        · split at hq
          · split at hq
            · injection hq with hq
              omega
            · exact absurd hq (by simp)
          · exact absurd hq (by simp)
  have haddr_lt : ∀ l : Str, ∀ x, ip_address_parse l = some (.v4 x) → x < 2 ^ 32 := by
    intro l x h
    unfold ip_address_parse at h
    split at h
    · rename_i n hn
      injection h with h
      injection h with h
      subst h
      unfold parseIPv4 at hn
      split at hn
      · rename_i a b c d heq
        split at hn
        · exact absurd hn (by simp)
        · rename_i a' hpa
          split at hn
          · exact absurd hn (by simp)
          · rename_i b' hpb
            split at hn
            · exact absurd hn (by simp)
            · rename_i c' hpc
              split at hn
              · exact absurd hn (by simp)
              · rename_i d' hpd
                have h1 := hoct a a' hpa
                have h2 := hoct b b' hpb
                have h3 := hoct c c' hpc
                have h4 := hoct d d' hpd
                injection hn with hn
                subst hn
                have e1 : a' * 256 + b' ≤ 255 * 256 + 255 := by omega
                have e2 : (a' * 256 + b') * 256 + c' ≤ (255 * 256 + 255) * 256 + 255 := by
                  have := Nat.mul_le_mul_right 256 e1
                  omega
                have e3 := Nat.mul_le_mul_right 256 e2
                omega
      · exact absurd hn (by simp)
    · exact absurd h (by simp)
  refine ⟨haddr_lt, ?_, ?_, ?_, by decide, by decide, by decide, by decide⟩
  · intro p ip a n x hs hnet hip
    obtain ⟨hdvd, hn32⟩ := ip_network_parse_v4_shape hnet
    have hp : p ≠ [] := by
      intro h
      subst h
      simp at hs
    have hipne : ip ≠ [] := by
      intro h
      subst h
      rw [ip_address_parse_nil] at hip
      exact absurd hip (by simp)
    have he : (p.isEmpty || ip.isEmpty) = false := by
      cases p with
      | nil => exact absurd rfl hp
      | cons a t =>
        cases ip with
        | nil => exact absurd rfl hipne
        | cons b u => rfl
    have hcs : p.contains '/' = true := by
      simp [List.contains]
      exact hs
    unfold ip_matches
    rw [he, hcs]
    simp only [Bool.false_eq_true, if_false, if_true]
    rw [hnet, hip]
    simp only [inNetwork]
    have : (x / 2 ^ (32 - n) * 2 ^ (32 - n) == a) =
        decide (a ≤ x ∧ x < a + 2 ^ (32 - n)) := by
      by_cases hcase : x / 2 ^ (32 - n) * 2 ^ (32 - n) = a
      · simp [hcase, (masked_eq_iff hdvd).1 hcase]
      · have : ¬ (a ≤ x ∧ x < a + 2 ^ (32 - n)) := fun hc => hcase ((masked_eq_iff hdvd).2 hc)
        simp [hcase, this]
    rw [this]
  · intro p ip base endp s e t hns hd hh hsplit hbase hend hip
    have hp : p ≠ [] := by
      intro h
      subst h
      simp at hd
    have hipne : ip ≠ [] := by
      intro h
      subst h
      rw [ip_address_parse_nil] at hip
      exact absurd hip (by simp)
    have he : (p.isEmpty || ip.isEmpty) = false := by
      cases p with
      | nil => exact absurd rfl hp
      | cons a0 t0 =>
        cases ip with
        | nil => exact absurd rfl hipne
        | cons b u => rfl
    have hcs : p.contains '/' = false := by
      simp [List.contains]
      exact hns
    have hcd : (p.contains '-' && !(p.head? == some '-')) = true := by
      have h1 : p.contains '-' = true := by
        simp [List.contains]
        exact hd
      have h2 : (p.head? == some '-') = false := by
        simp
        intro hx
        exact hh (by simp [hx])
      rw [h1, h2]
      rfl
    unfold ip_matches
    rw [he, hcs, hcd]
    simp only [Bool.false_eq_true, if_false, if_true]
    rw [hsplit]
    simp only
    rw [hbase, hend, hip]
    simp only [cmpLe]
    by_cases hst : s ≤ t
    · by_cases hte : t ≤ e
      · rw [decide_eq_true hst, decide_eq_true hte,
          decide_eq_true (show s ≤ t ∧ t ≤ e from ⟨hst, hte⟩)]
        rfl
      · rw [decide_eq_true hst, decide_eq_false hte,
          decide_eq_false (show ¬(s ≤ t ∧ t ≤ e) from fun hc => hte hc.2)]
        rfl
    · rw [decide_eq_false hst,
        decide_eq_false (show ¬(s ≤ t ∧ t ≤ e) from fun hc => hst hc.1)]
      rfl
  · intro p ip hns hnd
    by_cases hp : p = []
    · subst hp
      simp [ip_matches, pattern_matches]
    by_cases hip : ip = []
    · subst hip
      rw [pattern_matches_nil_value]
      simp [ip_matches]
    have he : (p.isEmpty || ip.isEmpty) = false := by
      cases p with
      | nil => exact absurd rfl hp
      | cons a t =>
        cases ip with
        | nil => exact absurd rfl hip
        | cons b u => rfl
    have hcs : p.contains '/' = false := by
      simp [List.contains]
      exact hns
    have hcd : (p.contains '-' && !(p.head? == some '-')) = false := by
      rcases hnd with h | h
      · have : p.contains '-' = false := by
          simp [List.contains]
          exact h
        rw [this]
        rfl
      · have : (p.head? == some '-') = true := by simp [h]
        rw [this]
        simp
    unfold ip_matches
    rw [he, hcs, hcd]
    rfl

theorem C3_ip_matches_cidr_range_delegate_witness :
    ip_matches (sl "192.168.1.0/24") (sl "192.168.1.77") =
      .ok (decide (3232235776 ≤ 3232235853 ∧ 3232235853 < 3232235776 + 2 ^ (32 - 24))) :=
  C3_ip_matches_cidr_range_delegate.2.1 (sl "192.168.1.0/24") (sl "192.168.1.77")
    3232235776 24 3232235853 (by decide) (by decide) (by decide)

/-- C4 (failing input for the never-raises claim): on the range pattern
`192.168.1.100-200` with the IPv6 value `::1`, `ip_matches` parses an
IPv4 start and an IPv6 target and the comparison `start_ip <= target`
raises `TypeError` — which the surrounding `except ValueError` does not
catch, so the call aborts instead of returning `False`. -/
theorem C4_ip_matches_mixed_version_range_raises :
    ip_matches (sl "192.168.1.100-200") (sl "::1") = .error .typeError := by
  decide

/-! ## Auto-group evaluation -/

/-- A client record: the fields `_client_matches_rules` reads.  `none`
stands for an absent key or an explicit `None` (both falsy in the Python
`or`-chains and empty-string defaults). -/
structure ClientRecord where
  oui : Option Str := none
  name : Option Str := none
  hostname : Option Str := none
  essid : Option Str := none
  network : Option Str := none
  ip : Option Str := none
  mac : Option Str := none
  is_wired : Bool := false
deriving DecidableEq, Repr

/-- `client.get(key, "")` (and `client.get(key) or ...` chains treat `None`
and `""` alike). -/
def pyGet (o : Option Str) : Str := o.getD []

/-- Python `a or b` on strings: `b` when `a` is falsy. -/
def firstTruthy (a b : Str) : Str := if a.isEmpty then b else a

/-- `if rules.<cat>:` — truthiness of an optional list: `None` and `[]`
are both falsy. -/
def catActive (o : Option (List Str)) : Bool :=
  match o with
  | some l => !l.isEmpty
  | none => false

/-- Python `any(...)` over a generator of fallible tests: stops at the
first `True`, propagates the first exception otherwise encountered. -/
def anyM {α : Type} (f : α → Except PyErr Bool) : List α → Except PyErr Bool
  | [] => .ok false
  | x :: t => do
    let b ← f x
    if b then pure true else anyM f t

/-- The `mac` category:
`mac.upper().startswith(p.upper().replace("-", ":"))`. -/
def macRuleMatch (c : ClientRecord) (p : Str) : Bool :=
  ((p.map Char.toUpper).map dashToColon).isPrefixOf ((pyGet c.mac).map Char.toUpper)

/-- The `conn_type` category value: `"wired" if is_wired else "wireless"`. -/
def connTypeStr (c : ClientRecord) : Str := if c.is_wired then sl "wired" else sl "wireless"

/-- The tail of `_client_matches_rules` after the `ip` category: the `mac`
and `conn_type` early returns. -/
def macConnCheck (c : ClientRecord) (r : AutoGroupRules) : Except PyErr Bool :=
  if catActive r.mac && !((r.mac.getD []).any (macRuleMatch c)) then .ok false
  else if catActive r.conn_type &&
      !(((r.conn_type.getD []).map lowerStr).contains (connTypeStr c)) then .ok false
  else .ok true

/-- `GroupManager._client_matches_rules`: the early-return AND chain of the
seven categories, in source order; the `ip` category is the only fallible
one (its `any(...)` can raise, see `ip_matches`). -/
def client_matches_rules (c : ClientRecord) (r : AutoGroupRules) : Except PyErr Bool :=
  if catActive r.vendor &&
      !((r.vendor.getD []).any (fun p => pattern_matches p (pyGet c.oui))) then .ok false
  else if catActive r.name &&
      !((r.name.getD []).any
        (fun p => pattern_matches p (firstTruthy (pyGet c.name) (pyGet c.hostname)))) then
    .ok false
  else if catActive r.hostname &&
      !((r.hostname.getD []).any (fun p => pattern_matches p (pyGet c.hostname))) then .ok false
  else if catActive r.network &&
      !((r.network.getD []).any
        (fun p => pattern_matches p (firstTruthy (pyGet c.essid) (pyGet c.network)))) then
    .ok false
  else if catActive r.ip then
    match anyM (fun p => ip_matches p (pyGet c.ip)) (r.ip.getD []) with
    | .error e => .error e
    | .ok ipOk => if !ipOk then .ok false else macConnCheck c r
  else macConnCheck c r

/-- `ValueError` ("not found") or a propagated Python exception. -/
inductive EvalErr where
  | notFound
  | pyErr (e : PyErr)
deriving DecidableEq, Repr

/-- The evaluation loop: append each matching client, propagating the
first exception. -/
def filterClients (r : AutoGroupRules) : List ClientRecord → Except PyErr (List ClientRecord)
  | [] => .ok []
  | c :: cs => do
    let b ← client_matches_rules c r
    let rest ← filterClients r cs
    pure (if b then c :: rest else rest)

/-- `GroupManager.evaluate_auto_group`.  Pydantic models are always truthy,
so `not group.rules` in the source is exactly `rules is None`. -/
def evaluate_auto_group (st : GroupsFile) (ident : Str) (clients : List ClientRecord) :
    Except EvalErr (List ClientRecord) :=
  match get_group st ident with
  | none => .error .notFound
  | some (_, g) =>
    if g.type != .auto then .ok []
    else
      match g.rules with
      | none => .ok []
      | some r => (filterClients r clients).mapError .pyErr

/-! Specification-side predicate, from the spec's words: AND across the
seven categories, a category with no patterns always passes, OR within a
category; address-category failures count as non-matches.  `C1` proves the
code's filter equal to the filter by this predicate. -/

def exceptToBool (x : Except PyErr Bool) : Bool :=
  match x with
  | .ok b => b
  | .error _ => false

def ipMatchesB (p v : Str) : Bool := exceptToBool (ip_matches p v)

def catOk (pats : Option (List Str)) (f : Str → Bool) : Bool :=
  match pats with
  | none => true
  | some l => l.isEmpty || l.any f

/-- `clientMatchesRules` as the specification states it. -/
def clientMatchesRulesSpec (c : ClientRecord) (r : AutoGroupRules) : Bool :=
  catOk r.vendor (fun p => pattern_matches p (pyGet c.oui)) &&
  catOk r.name (fun p => pattern_matches p (firstTruthy (pyGet c.name) (pyGet c.hostname))) &&
  catOk r.hostname (fun p => pattern_matches p (pyGet c.hostname)) &&
  catOk r.network (fun p => pattern_matches p (firstTruthy (pyGet c.essid) (pyGet c.network))) &&
  catOk r.ip (fun p => ipMatchesB p (pyGet c.ip)) &&
  catOk r.mac (macRuleMatch c) &&
  catOk r.conn_type (fun p => lowerStr p == connTypeStr c)

theorem except_bind_ok {ε α β : Type} (a : α) (f : α → Except ε β) :
    (Except.ok a : Except ε α) >>= f = f a := rfl

theorem except_bind_err {ε α β : Type} (e : ε) (f : α → Except ε β) :
    (Except.error e : Except ε α) >>= f = .error e := rfl

/-- `catOk` is the negation of the code's early-return condition. -/
theorem catOk_eq (pats : Option (List Str)) (f : Str → Bool) :
    catOk pats f = !(catActive pats && !((pats.getD []).any f)) := by
  cases pats with
  | none => rfl
  | some l =>
    cases hl : l.isEmpty
    · simp [catOk, catActive, hl]
    · simp [catOk, catActive, hl]

theorem catOk_of_inactive {pats : Option (List Str)} (f : Str → Bool)
    (h : catActive pats = false) : catOk pats f = true := by
  rw [catOk_eq, h]
  rfl

theorem beq_symm_str (a b : Str) : (a == b) = (b == a) := by
  by_cases h : a = b
  · subst h
    rfl
  · simp [h, Ne.symm h]

/-- Membership in the lower-cased list is the OR of case-insensitive
comparisons. -/
theorem contains_map_lower_eq_any (l : List Str) (x : Str) :
    ((l.map lowerStr).contains x) = l.any (fun p => lowerStr p == x) := by
  induction l with
  | nil => rfl
  | cons p t ih =>
    simp only [List.map_cons, List.contains_cons, List.any_cons, ih, beq_symm_str x]

/-- The `mac`/`conn_type` tail agrees with the spec's last two factors. -/
theorem macConnCheck_ok {c : ClientRecord} {r : AutoGroupRules} {b : Bool}
    (h : macConnCheck c r = .ok b) :
    (!(catActive r.mac && !((r.mac.getD []).any (macRuleMatch c))) &&
      !(catActive r.conn_type &&
        !((r.conn_type.getD []).any (fun p => lowerStr p == connTypeStr c)))) = b := by
  unfold macConnCheck at h
  rw [contains_map_lower_eq_any] at h
  by_cases h6 : (catActive r.mac && !((r.mac.getD []).any (macRuleMatch c))) = true
  · rw [if_pos h6] at h
    injection h with h
    rw [h6, ← h]
    rfl
  · rw [if_neg h6] at h
    rw [eq_false_of_ne_true h6]
    simp only [Bool.not_false, Bool.true_and]
    by_cases h7 : (catActive r.conn_type &&
        !((r.conn_type.getD []).any (fun p => lowerStr p == connTypeStr c))) = true
    · rw [if_pos h7] at h
      injection h with h
      rw [h7, ← h]
      rfl
    · rw [if_neg h7] at h
      injection h with h
      rw [eq_false_of_ne_true h7, ← h]
      rfl

theorem anyM_ok {α : Type} {f : α → Except PyErr Bool} :
    ∀ {l : List α} {b : Bool}, anyM f l = .ok b →
      b = l.any (fun x => exceptToBool (f x)) := by
  intro l
  induction l with
  | nil =>
    intro b h
    injection h with h
    simp [h.symm]
  | cons x t ih =>
    intro b h
    unfold anyM at h
    rcases hfx : f x with e | c
    · rw [hfx, except_bind_err] at h
      exact absurd h (by simp)
    · rw [hfx, except_bind_ok] at h
      cases c with
      | true =>
        simp only [if_true] at h
        injection h with h
        simp [h.symm, exceptToBool, hfx]
      | false =>
        simp only [Bool.false_eq_true, if_false] at h
        rw [ih h]
        simp [exceptToBool, hfx]

/-- Success values of the code's early-return chain agree with the
specification's AND/OR predicate. -/
theorem client_matches_rules_ok {c : ClientRecord} {r : AutoGroupRules} {b : Bool}
    (h : client_matches_rules c r = .ok b) : clientMatchesRulesSpec c r = b := by
  unfold client_matches_rules at h
  unfold clientMatchesRulesSpec
  rw [catOk_eq r.vendor, catOk_eq r.name, catOk_eq r.hostname, catOk_eq r.network,
    catOk_eq r.mac, catOk_eq r.conn_type]
  by_cases h1 : (catActive r.vendor &&
      !((r.vendor.getD []).any (fun p => pattern_matches p (pyGet c.oui)))) = true
  · rw [if_pos h1] at h
    injection h with h
    rw [h1, ← h]
    rfl
  · have h1' := (Bool.not_eq_true _).symm ▸ h1
    rw [if_neg h1] at h
    rw [eq_false_of_ne_true h1]
    simp only [Bool.not_false, Bool.true_and]
    by_cases h2 : (catActive r.name &&
        !((r.name.getD []).any
          (fun p => pattern_matches p (firstTruthy (pyGet c.name) (pyGet c.hostname))))) = true
    · rw [if_pos h2] at h
      injection h with h
      rw [h2, ← h]
      rfl
    · rw [if_neg h2] at h
      rw [eq_false_of_ne_true h2]
      simp only [Bool.not_false, Bool.true_and]
      by_cases h3 : (catActive r.hostname &&
          !((r.hostname.getD []).any (fun p => pattern_matches p (pyGet c.hostname)))) = true
      · rw [if_pos h3] at h
        injection h with h
        rw [h3, ← h]
        rfl
      · rw [if_neg h3] at h
        rw [eq_false_of_ne_true h3]
        simp only [Bool.not_false, Bool.true_and]
        by_cases h4 : (catActive r.network &&
            !((r.network.getD []).any
              (fun p => pattern_matches p (firstTruthy (pyGet c.essid) (pyGet c.network))))) = true
        · rw [if_pos h4] at h
          injection h with h
          rw [h4, ← h]
          rfl
        · rw [if_neg h4] at h
          rw [eq_false_of_ne_true h4]
          simp only [Bool.not_false, Bool.true_and]
          by_cases hact : catActive r.ip = true
          · rw [if_pos hact] at h
            rcases hX : anyM (fun p => ip_matches p (pyGet c.ip)) (r.ip.getD []) with e | ipb
            · rw [hX] at h
              have h' : (Except.error e : Except PyErr Bool) = .ok b := h
              exact absurd h' (by simp)
            · rw [hX] at h
              have h' : (if (!ipb) = true then Except.ok false else macConnCheck c r) =
                  Except.ok b := h
              have hcat : catOk r.ip (fun p => ipMatchesB p (pyGet c.ip)) = ipb := by
                have hb := anyM_ok hX
                cases hri : r.ip with
                | none => exact absurd hact (by simp [catActive, hri])
                | some l =>
                  have hle : l.isEmpty = false := by
                    rw [hri] at hact
                    simpa [catActive] using hact
                  have hb2 : ipb = l.any fun x => exceptToBool (ip_matches x (pyGet c.ip)) := by
                    rw [hri] at hb
                    simpa using hb
                  simp only [catOk, hle, Bool.false_or]
                  exact hb2.symm
              rw [hcat]
              cases ipb with
              | false =>
                rw [show (!(false : Bool)) = true from rfl, if_pos rfl] at h'
                cases h'
                rfl
              | true =>
                rw [show (!(true : Bool)) = false from rfl, if_neg (by simp)] at h'
                simp only [Bool.true_and]
                exact macConnCheck_ok h'
          · have hact' : catActive r.ip = false := eq_false_of_ne_true hact
            rw [if_neg hact] at h
            rw [catOk_of_inactive _ hact']
            simp only [Bool.true_and]
            exact macConnCheck_ok h

/-- When no client's evaluation raises, the evaluation loop is exactly the
filter by the specification predicate. -/
theorem filterClients_ok {r : AutoGroupRules} :
    ∀ {clients : List ClientRecord},
      (∀ c ∈ clients, ∃ b, client_matches_rules c r = .ok b) →
      filterClients r clients = .ok (clients.filter (fun c => clientMatchesRulesSpec c r)) := by
  intro clients
  induction clients with
  | nil => intro _; rfl
  | cons c cs ih =>
    intro hok
    obtain ⟨b, hb⟩ := hok c (List.mem_cons_self c cs)
    have ih' := ih (fun x hx => hok x (List.mem_cons_of_mem c hx))
    unfold filterClients
    rw [hb, except_bind_ok, ih', except_bind_ok, List.filter_cons,
      client_matches_rules_ok hb]
    cases b
    · rfl
    · rfl

theorem evaluate_err_of_unresolved {st : GroupsFile} {ident : Str}
    (clients : List ClientRecord) (h : get_group st ident = none) :
    evaluate_auto_group st ident clients = .error .notFound := by
  unfold evaluate_auto_group
  rw [h]

theorem evaluate_nil_of_static {st : GroupsFile} {ident : Str} {slug : Str} {g : Group}
    (clients : List ClientRecord) (h : get_group st ident = some (slug, g))
    (ht : g.type = .static) : evaluate_auto_group st ident clients = .ok [] := by
  unfold evaluate_auto_group
  rw [h]
  show (if (g.type != GType.auto) = true then Except.ok []
    else
      match g.rules with
      | none => Except.ok []
      | some r => Except.mapError EvalErr.pyErr (filterClients r clients)) = _
  rw [ht]
  rfl

theorem evaluate_nil_of_rules_none {st : GroupsFile} {ident : Str} {slug : Str} {g : Group}
    (clients : List ClientRecord) (h : get_group st ident = some (slug, g))
    (hr : g.rules = none) : evaluate_auto_group st ident clients = .ok [] := by
  unfold evaluate_auto_group
  rw [h]
  show (if (g.type != GType.auto) = true then Except.ok []
    else
      match g.rules with
      | none => Except.ok []
      | some r => Except.mapError EvalErr.pyErr (filterClients r clients)) = _
  rw [hr]
  split
  · rfl
  · rfl

theorem evaluate_filters {st : GroupsFile} {ident : Str} {slug : Str} {g : Group}
    {r : AutoGroupRules} (clients : List ClientRecord)
    (h : get_group st ident = some (slug, g)) (ht : g.type = .auto) (hr : g.rules = some r)
    (hok : ∀ c ∈ clients, ∃ b, client_matches_rules c r = .ok b) :
    evaluate_auto_group st ident clients =
      .ok (clients.filter (fun c => clientMatchesRulesSpec c r)) := by
  unfold evaluate_auto_group
  rw [h]
  show (if (g.type != GType.auto) = true then Except.ok []
    else
      match g.rules with
      | none => Except.ok []
      | some r => Except.mapError EvalErr.pyErr (filterClients r clients)) = _
  rw [ht, hr]
  simp only [bne_self_eq_false, Bool.false_eq_true, if_false]
  rw [filterClients_ok hok]
  rfl

/-- C1: `evaluate_auto_group` fails with not-found when the identifier does
not resolve; returns `[]` for a static group and for a rule-less (`rules is
None`) auto group; and for an auto group with a rules object it returns
exactly the sublist of candidates satisfying the specification's
`clientMatchesRules` (AND over the seven categories, OR within a category,
categories without patterns passing), provided no candidate's evaluation
raises. -/
theorem C1_evaluate_auto_group_filters (st : GroupsFile) (ident : Str)
    (clients : List ClientRecord) :
    (get_group st ident = none →
      evaluate_auto_group st ident clients = .error .notFound) ∧
    (∀ slug g, get_group st ident = some (slug, g) → g.type = .static →
      evaluate_auto_group st ident clients = .ok []) ∧
    (∀ slug g, get_group st ident = some (slug, g) → g.rules = none →
      evaluate_auto_group st ident clients = .ok []) ∧
    (∀ slug g r, get_group st ident = some (slug, g) → g.type = .auto → g.rules = some r →
      (∀ c ∈ clients, ∃ b, client_matches_rules c r = .ok b) →
      evaluate_auto_group st ident clients =
        .ok (clients.filter (fun c => clientMatchesRulesSpec c r))) :=
  ⟨evaluate_err_of_unresolved clients,
    fun _ _ h ht => evaluate_nil_of_static clients h ht,
    fun _ _ h hr => evaluate_nil_of_rules_none clients h hr,
    fun _ _ _ h ht hr hok => evaluate_filters clients h ht hr hok⟩

/-! Concrete data for the C1 witness: the specification's own example,
rules `{vendor: ["Apple"], conn_type: ["wireless"]}` against a mixed
client list. -/

def rulesApple : AutoGroupRules :=
  { vendor := some [sl "Apple"], conn_type := some [sl "wireless"] }

def gApple : Group :=
  { name := sl "Apple WiFi", type := .auto, rules := some rulesApple,
    created_at := 0, updated_at := 0 }

def storeApple : GroupsFile := { version := 1, groups := [(sl "apple-wifi", gApple)] }

def clAppleWireless : ClientRecord :=
  { oui := some (sl "Apple"), mac := some (sl "AA:00:00:00:00:01"), is_wired := false }

def clAppleWired : ClientRecord :=
  { oui := some (sl "Apple"), mac := some (sl "AA:00:00:00:00:02"), is_wired := true }

def clSamsungWireless : ClientRecord :=
  { oui := some (sl "Samsung"), mac := some (sl "AA:00:00:00:00:03"), is_wired := false }

theorem C1_evaluate_auto_group_filters_witness :
    evaluate_auto_group storeApple (sl "apple-wifi")
      [clAppleWireless, clAppleWired, clSamsungWireless] = .ok [clAppleWireless] := by
  have h := (C1_evaluate_auto_group_filters storeApple (sl "apple-wifi")
      [clAppleWireless, clAppleWired, clSamsungWireless]).2.2.2
    (sl "apple-wifi") gApple rulesApple (by decide) (by decide) (by decide)
    (by
      intro c hc
      fin_cases hc <;> exact ⟨_, rfl⟩)
  rw [h]
  decide

/-- A rules object with every category unset. -/
def emptyRules : AutoGroupRules :=
  { vendor := none, name := none, hostname := none, network := none,
    ip := none, mac := none, conn_type := none }

/-- C10: with a rules object present but all seven categories unset, every
candidate passes vacuously and the whole candidate list is returned; only
`rules is None` (together with the static case) produces the empty list. -/
theorem C10_empty_rules_object_matches_all (st : GroupsFile) (ident : Str)
    (clients : List ClientRecord) (slug : Str) (g : Group)
    (h : get_group st ident = some (slug, g)) (ht : g.type = .auto) :
    (g.rules = some emptyRules →
      evaluate_auto_group st ident clients = .ok clients) ∧
    (g.rules = none → evaluate_auto_group st ident clients = .ok []) := by
  constructor
  · intro hr
    have hall : ∀ c ∈ clients, ∃ b, client_matches_rules c emptyRules = .ok b :=
      fun c _ => ⟨true, rfl⟩
    rw [evaluate_filters clients h ht hr hall]
    congr 1
    apply List.filter_eq_self.2
    intro c _
    rfl
  · intro hr
    exact evaluate_nil_of_rules_none clients h hr

/-- An auto group whose rules object is present with every category unset,
and one whose rules field is absent, for the C10 witness. -/
def gEmptyRules : Group :=
  { name := sl "All Clients", type := .auto, rules := some emptyRules,
    created_at := 0, updated_at := 0 }

def gNoRules : Group :=
  { name := sl "Bare", type := .auto, rules := none,
    created_at := 0, updated_at := 0 }

def storeEmptyRules : GroupsFile :=
  { version := 1, groups := [(sl "all-clients", gEmptyRules), (sl "bare", gNoRules)] }

theorem C10_empty_rules_object_matches_all_witness :
    evaluate_auto_group storeEmptyRules (sl "all-clients")
      [clAppleWired, clSamsungWireless] = .ok [clAppleWired, clSamsungWireless] ∧
    evaluate_auto_group storeEmptyRules (sl "bare")
      [clAppleWired, clSamsungWireless] = .ok [] :=
  ⟨(C10_empty_rules_object_matches_all storeEmptyRules (sl "all-clients")
      [clAppleWired, clSamsungWireless] (sl "all-clients") gEmptyRules
      (by decide) (by decide)).1 (by decide),
   (C10_empty_rules_object_matches_all storeEmptyRules (sl "bare")
      [clAppleWired, clSamsungWireless] (sl "bare") gNoRules
      (by decide) (by decide)).2 (by decide)⟩

/-! ## Persistence: `_load` -/

/-- The possible outcomes of reading and decoding the backing file in
`GroupManager._load`:
* `missing` — the file does not exist (`self._path.exists()` is false);
* `invalidJson` — `json.loads` raises `json.JSONDecodeError` (caught);
* `nonMappingTop` — the content is valid JSON whose top level is not an
  object (a list, string, number, boolean or null), so `GroupsFile(**raw)`
  raises `TypeError` ("argument after ** must be a mapping") — NOT caught
  by `except (json.JSONDecodeError, ValueError)`;
* `schemaMismatch` — the top level is an object that fails pydantic
  validation (`ValidationError`, a `ValueError` subclass, caught);
* `wellFormed f` — an object that validates to `f`. -/
inductive ReadOutcome where
  | missing
  | invalidJson
  | nonMappingTop
  | schemaMismatch
  | wellFormed (f : GroupsFile)
deriving DecidableEq, Repr

/-- `GroupManager._load`: the caught exception classes recover to the
empty document, but the `TypeError` of the non-mapping case escapes the
`except` clause and aborts the read path. -/
def load : ReadOutcome → Except PyErr GroupsFile
  | .missing => .ok {}
  | .invalidJson => .ok {}
  | .nonMappingTop => .error .typeError
  | .schemaMismatch => .ok {}
  | .wellFormed f => .ok f

/-- C5 (failing input for the never-fails claim): on a backing file whose
content is valid JSON with a non-object top level (e.g. `[1, 2, 3]`),
`GroupsFile(**raw)` raises `TypeError`, which
`except (json.JSONDecodeError, ValueError)` does not catch — the read
path crashes instead of returning the empty document.  The caught cases
(missing file, invalid JSON, schema mismatch) do recover to the empty
`version = 1` document, and well-formed content loads as parsed. -/
theorem C5_load_nonmapping_top_level_raises :
    load .nonMappingTop = .error .typeError ∧
    load .missing = .ok { version := 1, groups := [] } ∧
    load .invalidJson = .ok { version := 1, groups := [] } ∧
    load .schemaMismatch = .ok { version := 1, groups := [] } ∧
    (∀ f, load (.wellFormed f) = .ok f) :=
  ⟨rfl, rfl, rfl, rfl, fun _ => rfl⟩

/-! ## Import / export

`export_groups` is `model_dump()`: the enum `type` becomes its string
value, the other fields dump to equal raw values (python-mode dump keeps
datetimes and nested models re-validate unchanged; the `Literal` check on
`type` is the substantive validation on the way back in). -/

structure RawGroup where
  name : Str
  description : Option Str
  type : Str
  members : Option (List GroupMember)
  rules : Option AutoGroupRules
  created_at : Nat
  updated_at : Nat
deriving DecidableEq, Repr

structure RawFile where
  version : Nat
  groups : List (Str × RawGroup)
deriving DecidableEq, Repr

def dumpGroup (g : Group) : RawGroup :=
  { name := g.name, description := g.description,
    type := match g.type with
      | .static => sl "static"
      | .auto => sl "auto",
    members := g.members, rules := g.rules,
    created_at := g.created_at, updated_at := g.updated_at }

/-- `GroupManager.export_groups` (`self.data.model_dump()`). -/
def export_groups (st : GroupsFile) : RawFile :=
  { version := st.version, groups := st.groups.map (fun p => (p.1, dumpGroup p.2)) }

/-- Pydantic `ValidationError` on re-validation (`InvalidFormat`). -/
inductive ImportErr where
  | invalidFormat
deriving DecidableEq, Repr

/-- Validate the `Literal["static", "auto"]` field. -/
def parseGType (l : Str) : Except ImportErr GType :=
  if l == sl "static" then .ok .static
  else if l == sl "auto" then .ok .auto
  else .error .invalidFormat

def parseGroup (rg : RawGroup) : Except ImportErr Group := do
  let t ← parseGType rg.type
  pure { name := rg.name, description := rg.description, type := t,
         members := rg.members, rules := rg.rules,
         created_at := rg.created_at, updated_at := rg.updated_at }

def parseEntries : List (Str × RawGroup) → Except ImportErr (List (Str × Group))
  | [] => .ok []
  | p :: t => do
    let g ← parseGroup p.2
    let rest ← parseEntries t
    pure ((p.1, g) :: rest)

/-- `GroupsFile(**data)`: re-validate a dumped document. -/
def parseFile (rf : RawFile) : Except ImportErr GroupsFile := do
  let gs ← parseEntries rf.groups
  pure { version := rf.version, groups := gs }

/-- `GroupManager.import_groups`: validate, then replace the whole store or
merge entry-by-entry (import wins on slug collision); returns the number of
groups in the imported document. -/
def import_groups (st : GroupsFile) (data : RawFile) (replace : Bool) :
    Except ImportErr (GroupsFile × Nat) := do
  let imported ← parseFile data
  let st' := if replace then imported
    else { st with groups := imported.groups.foldl (fun acc p => dictSet p.1 p.2 acc) st.groups }
  pure (st', imported.groups.length)

theorem parseGroup_dumpGroup (g : Group) : parseGroup (dumpGroup g) = .ok g := by
  cases g with
  | mk name description ty members rules created_at updated_at => cases ty <;> rfl

theorem parseEntries_dump (l : List (Str × Group)) :
    parseEntries (l.map (fun p => (p.1, dumpGroup p.2))) = .ok l := by
  induction l with
  | nil => rfl
  | cons p t ih =>
    simp only [List.map_cons]
    unfold parseEntries
    rw [parseGroup_dumpGroup, except_bind_ok, ih, except_bind_ok]
    rfl

/-- C8: re-importing an exported store with `replace = true` succeeds and
reproduces the store exactly — same slugs, and for each slug a group equal
in every field — reporting the full group count. -/
theorem C8_import_export_roundtrip (st : GroupsFile) :
    import_groups st (export_groups st) true = .ok (st, st.groups.length) := by
  unfold import_groups parseFile export_groups
  rw [show ({ version := st.version, groups := st.groups.map (fun p => (p.1, dumpGroup p.2)) } : RawFile).groups = st.groups.map (fun p => (p.1, dumpGroup p.2)) from rfl]
  rw [parseEntries_dump]
  rfl

end UiCliGroups
